import Mathlib

/-!
Shallow embedding of the `ldap_attr` module
(`playbooks/library/database/ldap/ldap_attr.py`): reconciliation of the
values of one LDAP attribute against a desired value list, in one of the
modes `present`, `absent`, `exact`.

The directory server is modelled as an `Oracle` of responses; the module's
execution is modelled by explicit state passing of an `ExecState` holding
the lazily-created connection flag (`LdapAttr._connection`) and the trace
of directory operations issued, so that frame properties (check mode never
modifies, empty value list never contacts the server) are statable.
-/

namespace LdapAttr

/-- Attribute values are byte strings compared byte-for-byte; modelled as
`String`. -/
abbrev Value := String

/-- Directory-layer errors (`ldap.LDAPError` subclasses).
`noSuchAttribute` models `ldap.NO_SUCH_ATTRIBUTE`; every other LDAP error
is collapsed into `other` with its message. -/
inductive DirError where
  | noSuchAttribute
  | other (msg : String)
deriving DecidableEq

/-- The modification type tags `ldap.MOD_ADD`, `ldap.MOD_DELETE`,
`ldap.MOD_REPLACE`. -/
inductive ModType where
  | modAdd
  | modDelete
  | modReplace
deriving DecidableEq

/-- One entry of a python-ldap modlist: `(mod_type, name, vals)` where
`vals` is a list of values or `None` (modelled by `Option`). A
`(MOD_DELETE, name, none)` deletes the whole attribute. -/
structure ModOp where
  typ : ModType
  name : String
  vals : Option (List Value)
deriving DecidableEq

/-- A modlist as passed to `connection.modify_s`. -/
abbrev Modlist := List ModOp

/-- Directory operations observable on the wire: connection establishment
(`ldap.initialize` + optional `start_tls_s` + bind), `compare_s`,
`search_s`, `modify_s`. -/
inductive DirOp where
  | connect
  | compare (v : Value)
  | search
  | modify (ml : Modlist)
deriving DecidableEq

/-- Whether a directory operation is a modification (`modify_s`). -/
def DirOp.isModify : DirOp → Bool
  | .modify _ => true
  | _ => false

/-- Server responses: what `compare_s`, `search_s` and `modify_s` return
for this invocation's fixed `(dn, name)` target. `compareResp v` is the
outcome of `compare_s(dn, name, v)`; `searchResp` is the value list
extracted from the base-scope `search_s` (empty list when the entry lacks
the attribute); `modifyResp` is the outcome of `modify_s`. -/
structure Oracle where
  compareResp : Value → Except DirError Bool
  searchResp : Except DirError (List Value)
  modifyResp : Modlist → Except DirError Unit

/-- The module's connection state: `connected` mirrors
`self._connection is not None`, `trace` records every directory operation
issued so far (in order). -/
structure ExecState where
  connected : Bool
  trace : List DirOp
deriving DecidableEq

/-- Fresh state at the start of an invocation (`self._connection = None`,
nothing issued). -/
def initState : ExecState := ⟨false, []⟩

/-- The `connection` property: connect and bind on first use, reuse
afterwards. -/
def ensureConnected (st : ExecState) : ExecState :=
  if st.connected then st else ⟨true, st.trace ++ [DirOp.connect]⟩

/-- The value computed by `is_value_present`: `compare_s` with
`ldap.NO_SUCH_ATTRIBUTE` caught and turned into `False`; any other
directory error propagates. -/
def value_present_result (o : Oracle) (v : Value) : Except DirError Bool :=
  match o.compareResp v with
  | .error .noSuchAttribute => .ok false
  | .error e => .error e
  | .ok b => .ok b

/-- `LdapAttr.is_value_present`: issues a `compare_s` through the cached
connection (connecting first if needed) and interprets the response. -/
def is_value_present (o : Oracle) (st : ExecState) (v : Value) :
    ExecState × Except DirError Bool :=
  let st1 := ensureConnected st
  (⟨st1.connected, st1.trace ++ [DirOp.compare v]⟩, value_present_result o v)

/-- Python's `filter(pred, values)` with the effectful predicate
`is_value_present` (keep when the result equals `keep`; `keep = false`
realises `is_value_absent`). Evaluates left to right; a directory error
aborts the filtering and propagates. -/
def filterByPresence (o : Oracle) (keep : Bool) :
    List Value → ExecState → ExecState × Except DirError (List Value)
  | [], st => (st, .ok [])
  | v :: vs, st =>
    let r := is_value_present o st v
    match r.2 with
    | .error e => (r.1, .error e)
    | .ok b =>
      let r2 := filterByPresence o keep vs r.1
      match r2.2 with
      | .error e => (r2.1, .error e)
      | .ok rest => (r2.1, .ok (if b = keep then v :: rest else rest))

/-- `LdapAttr.handle_present`: values for which `is_value_absent` holds are
added; empty modlist when none is missing. -/
def handle_present (o : Oracle) (n : String) (values : List Value)
    (st : ExecState) : ExecState × Except DirError Modlist :=
  let r := filterByPresence o false values st
  match r.2 with
  | .error e => (r.1, .error e)
  | .ok values_to_add =>
    (r.1, .ok (if 0 < values_to_add.length
               then [⟨ModType.modAdd, n, some values_to_add⟩]
               else []))

/-- `LdapAttr.handle_absent`: values for which `is_value_present` holds are
deleted; empty modlist when none is present. -/
def handle_absent (o : Oracle) (n : String) (values : List Value)
    (st : ExecState) : ExecState × Except DirError Modlist :=
  let r := filterByPresence o true values st
  match r.2 with
  | .error e => (r.1, .error e)
  | .ok values_to_delete =>
    (r.1, .ok (if 0 < values_to_delete.length
               then [⟨ModType.modDelete, n, some values_to_delete⟩]
               else []))

/-- `LdapAttr.current_values`: a base-scope `search_s` restricted to the
attribute, through the cached connection. -/
def current_values (o : Oracle) (st : ExecState) :
    ExecState × Except DirError (List Value) :=
  let st1 := ensureConnected st
  (⟨st1.connected, st1.trace ++ [DirOp.search]⟩, o.searchResp)

/-- `LdapAttr.handle_exact`: fetch current values; if the frozensets of
desired and current differ, emit Add when current is empty, a whole-
attribute delete when desired is empty, Replace otherwise. -/
def handle_exact (o : Oracle) (n : String) (values : List Value)
    (st : ExecState) : ExecState × Except DirError Modlist :=
  let r := current_values o st
  match r.2 with
  | .error e => (r.1, .error e)
  | .ok current =>
    (r.1, .ok (if values.toFinset = current.toFinset then []
               else if current.length = 0 then
                 [⟨ModType.modAdd, n, some values⟩]
               else if values.length = 0 then
                 [⟨ModType.modDelete, n, none⟩]
               else
                 [⟨ModType.modReplace, n, some values⟩]))

/-- The `state` module parameter (restricted by `choices` to these three). -/
inductive StateParam where
  | present
  | absent
  | exact
deriving DecidableEq

/-- The mode dispatch at the top of `LdapAttr.main`, starting from a fresh
invocation state. -/
def computePlan (o : Oracle) (n : String) (values : List Value)
    (s : StateParam) : ExecState × Except DirError Modlist :=
  match s with
  | .present => handle_present o n values initState
  | .absent => handle_absent o n values initState
  | .exact => handle_exact o n values initState

/-- What `exit_json` reports: the `changed` flag and the modlist. -/
structure ModuleResult where
  changed : Bool
  modlist : Modlist
deriving DecidableEq

/-- `LdapAttr.main`: dispatch on the state, then, when the modlist is
nonempty, set `changed` and apply it via `modify_s` unless in check mode. -/
def ldap_attr_main (o : Oracle) (n : String) (values : List Value)
    (s : StateParam) (checkMode : Bool) :
    ExecState × Except DirError ModuleResult :=
  let r := computePlan o n values s
  match r.2 with
  | .error e => (r.1, .error e)
  | .ok modlist =>
    if 0 < modlist.length then
      if checkMode then
        (r.1, .ok ⟨true, modlist⟩)
      else
        let st1 := ensureConnected r.1
        let st2 : ExecState := ⟨st1.connected, st1.trace ++ [DirOp.modify modlist]⟩
        (st2,
          match o.modifyResp modlist with
          | .error e => .error e
          | .ok _ => .ok ⟨true, modlist⟩)
    else (r.1, .ok ⟨false, modlist⟩)

/-- The raw `values` module parameter: a string, a list (whose members may
themselves be non-strings), or some other type entirely. -/
inductive Param where
  | str (s : String)
  | list (xs : List Param)
  | other

/-- `isinstance(value, basestring)` projection: the string when the
parameter is a string, `none` otherwise. -/
def Param.asString : Param → Option String
  | .str s => some s
  | _ => none

/-- The combination of `all(isinstance(value, basestring) for value in
values)` with `map(self._force_utf8, values)`: succeeds with the member
strings in order exactly when every member is a string. -/
def asStrings : List Param → Option (List String)
  | [] => some []
  | x :: xs =>
    match x.asString, asStrings xs with
    | some s, some ss => some (s :: ss)
    | _, _ => none

/-- `LdapAttr._normalized_values`: a string is reshaped into a list (the
empty string into the empty list), then the parameter must be a list of
strings or the module fails; `_force_utf8` is the identity here. -/
def normalized_values (values : Param) : Except String (List Value) :=
  let values1 : Param :=
    match values with
    | .str s => if s = "" then .list [] else .list [.str s]
    | v => v
  match values1 with
  | .list xs =>
    match asStrings xs with
    | some ss => .ok ss
    | none => .error "values must be a string or list of strings."
  | _ => .error "values must be a string or list of strings."

/-- The observable outcome of a whole module invocation: a successful
`exit_json`, a `fail_json` from input validation, or a `fail_json` from a
directory error caught in `main()`. -/
inductive InvocationResult where
  | success (changed : Bool) (modlist : Modlist)
  | invalidInput (msg : String)
  | dirFailure (e : DirError)
deriving DecidableEq

/-- One whole invocation: `__init__` normalizes the values parameter
(failing before any directory contact), then `LdapAttr.main` runs; the
second component is the trace of directory operations issued. -/
def ldap_attr_invoke (o : Oracle) (n : String) (valuesParam : Param)
    (s : StateParam) (checkMode : Bool) : InvocationResult × List DirOp :=
  match normalized_values valuesParam with
  | .error msg => (.invalidInput msg, [])
  | .ok values =>
    match ldap_attr_main o n values s checkMode with
    | (st, .error e) => (.dirFailure e, st.trace)
    | (st, .ok r) => (.success r.changed r.modlist, st.trace)

/-- A server holding exactly the value list `S` for the target attribute,
with byte-for-byte comparison, never failing: the reference model used for
the idempotence property. -/
def oracleOf (S : List Value) : Oracle where
  compareResp := fun v => .ok (decide (v ∈ S))
  searchResp := .ok S
  modifyResp := fun _ => .ok ()

/-- The server-side semantics of one modlist entry on the attribute's
value list. -/
def applyOp (S : List Value) (op : ModOp) : List Value :=
  match op.typ, op.vals with
  | .modAdd, some vs => S ++ vs
  | .modAdd, none => S
  | .modDelete, some vs => S.filter (fun v => decide (v ∉ vs))
  | .modDelete, none => []
  | .modReplace, some vs => vs
  | .modReplace, none => S

/-- The server-side semantics of a whole modlist, applied in order. -/
def applyPlan (S : List Value) (ml : Modlist) : List Value :=
  ml.foldl applyOp S

/-! ### Basic state lemmas -/

lemma ensureConnected_connected (st : ExecState) :
    (ensureConnected st).connected = true := by
  unfold ensureConnected
  split
  · assumption
  · rfl

lemma ensureConnected_of_connected {st : ExecState} (h : st.connected = true) :
    ensureConnected st = st := by
  unfold ensureConnected
  simp [h]

lemma ensureConnected_trace (st : ExecState) :
    ∃ tr, (ensureConnected st).trace = st.trace ++ tr ∧
      ∀ op ∈ tr, op.isModify = false := by
  unfold ensureConnected
  split
  · exact ⟨[], by simp⟩
  · exact ⟨[DirOp.connect], by simp [DirOp.isModify]⟩

lemma is_value_present_fst (o : Oracle) (st : ExecState) (v : Value) :
    (is_value_present o st v).1 =
      ⟨true, (ensureConnected st).trace ++ [DirOp.compare v]⟩ := by
  simp [is_value_present, ensureConnected_connected]

lemma is_value_present_snd (o : Oracle) (st : ExecState) (v : Value) :
    (is_value_present o st v).2 = value_present_result o v := rfl

lemma is_value_present_trace (o : Oracle) (st : ExecState) (v : Value) :
    ∃ tr, (is_value_present o st v).1.trace = st.trace ++ tr ∧
      ∀ op ∈ tr, op.isModify = false := by
  rw [is_value_present_fst]
  obtain ⟨tr0, htr0, hmod0⟩ := ensureConnected_trace st
  refine ⟨tr0 ++ [DirOp.compare v], ?_, ?_⟩
  · simp [htr0]
  · intro op hop
    rcases List.mem_append.mp hop with h | h
    · exact hmod0 op h
    · simp at h
      subst h
      rfl

/-! ### filterByPresence lemmas -/

lemma filterByPresence_fst_cases (o : Oracle) (keep : Bool) (v : Value)
    (vs : List Value) (st : ExecState) :
    (filterByPresence o keep (v :: vs) st).1 =
      match (is_value_present o st v).2 with
      | .error _ => (is_value_present o st v).1
      | .ok _ => (filterByPresence o keep vs (is_value_present o st v).1).1 := by
  simp only [filterByPresence]
  cases h : (is_value_present o st v).2 with
  | error e => simp
  | ok b =>
    simp only []
    cases h2 : (filterByPresence o keep vs (is_value_present o st v).1).2 <;> simp

lemma filterByPresence_trace (o : Oracle) (keep : Bool) :
    ∀ (vs : List Value) (st : ExecState),
      ∃ tr, (filterByPresence o keep vs st).1.trace = st.trace ++ tr ∧
        ∀ op ∈ tr, op.isModify = false := by
  intro vs
  induction vs with
  | nil => intro st; exact ⟨[], by simp [filterByPresence]⟩
  | cons v vs ih =>
    intro st
    obtain ⟨tr0, htr0, hmod0⟩ := is_value_present_trace o st v
    rw [filterByPresence_fst_cases]
    cases h : (is_value_present o st v).2 with
    | error e => exact ⟨tr0, htr0, hmod0⟩
    | ok b =>
      obtain ⟨tr1, htr1, hmod1⟩ := ih (is_value_present o st v).1
      refine ⟨tr0 ++ tr1, ?_, ?_⟩
      · rw [htr1, htr0, List.append_assoc]
      · intro op hop
        rcases List.mem_append.mp hop with h1 | h1
        · exact hmod0 op h1
        · exact hmod1 op h1

lemma filterByPresence_connected (o : Oracle) (keep : Bool) :
    ∀ (vs : List Value) (st : ExecState), vs ≠ [] →
      (filterByPresence o keep vs st).1.connected = true := by
  intro vs
  induction vs with
  | nil => intro st h; exact absurd rfl h
  | cons v vs ih =>
    intro st _
    rw [filterByPresence_fst_cases]
    cases h : (is_value_present o st v).2 with
    | error e => rw [is_value_present_fst]
    | ok b =>
      cases vs with
      | nil =>
        simp only [filterByPresence]
        rw [is_value_present_fst]
      | cons w ws => exact ih (is_value_present o st v).1 (by simp)

lemma filterByPresence_ok (o : Oracle) (p : Value → Bool)
    (hp : ∀ v, value_present_result o v = .ok (p v)) (keep : Bool) :
    ∀ (vs : List Value) (st : ExecState),
      (filterByPresence o keep vs st).2 =
        .ok (vs.filter (fun v => p v == keep)) := by
  intro vs
  induction vs with
  | nil => intro st; simp [filterByPresence]
  | cons v vs ih =>
    intro st
    simp only [filterByPresence, is_value_present_snd, hp v]
    rw [ih (is_value_present o st v).1]
    by_cases hv : p v = keep
    · simp [hv, List.filter_cons]
    · simp [hv, List.filter_cons]

/-! ### Handler lemmas -/

lemma handle_present_fst (o : Oracle) (n : String) (values : List Value)
    (st : ExecState) :
    (handle_present o n values st).1 = (filterByPresence o false values st).1 := by
  simp only [handle_present]
  cases h : (filterByPresence o false values st).2 <;> simp

lemma handle_absent_fst (o : Oracle) (n : String) (values : List Value)
    (st : ExecState) :
    (handle_absent o n values st).1 = (filterByPresence o true values st).1 := by
  simp only [handle_absent]
  cases h : (filterByPresence o true values st).2 <;> simp

lemma handle_exact_fst (o : Oracle) (n : String) (values : List Value)
    (st : ExecState) :
    (handle_exact o n values st).1 = (current_values o st).1 := by
  simp only [handle_exact]
  cases h : (current_values o st).2 <;> simp

lemma current_values_fst (o : Oracle) (st : ExecState) :
    (current_values o st).1 =
      ⟨true, (ensureConnected st).trace ++ [DirOp.search]⟩ := by
  simp [current_values, ensureConnected_connected]

lemma handle_present_snd (o : Oracle) (p : Value → Bool)
    (hp : ∀ v, value_present_result o v = .ok (p v)) (n : String)
    (values : List Value) (st : ExecState) :
    (handle_present o n values st).2 =
      .ok (if 0 < (values.filter (fun v => p v == false)).length
           then [⟨ModType.modAdd, n, some (values.filter (fun v => p v == false))⟩]
           else []) := by
  simp only [handle_present, filterByPresence_ok o p hp false values st]

lemma handle_absent_snd (o : Oracle) (p : Value → Bool)
    (hp : ∀ v, value_present_result o v = .ok (p v)) (n : String)
    (values : List Value) (st : ExecState) :
    (handle_absent o n values st).2 =
      .ok (if 0 < (values.filter (fun v => p v == true)).length
           then [⟨ModType.modDelete, n, some (values.filter (fun v => p v == true))⟩]
           else []) := by
  simp only [handle_absent, filterByPresence_ok o p hp true values st]

/-! ### computePlan lemmas -/

lemma computePlan_no_modify (o : Oracle) (n : String) (values : List Value)
    (s : StateParam) :
    ∀ op ∈ (computePlan o n values s).1.trace, op.isModify = false := by
  cases s with
  | present =>
    simp only [computePlan, handle_present_fst]
    obtain ⟨tr, htr, hmod⟩ := filterByPresence_trace o false values initState
    rw [htr]
    intro op hop
    exact hmod op (by simpa [initState] using hop)
  | absent =>
    simp only [computePlan, handle_absent_fst]
    obtain ⟨tr, htr, hmod⟩ := filterByPresence_trace o true values initState
    rw [htr]
    intro op hop
    exact hmod op (by simpa [initState] using hop)
  | exact =>
    simp only [computePlan, handle_exact_fst, current_values_fst]
    intro op hop
    simp only [initState, ensureConnected] at hop
    simp at hop
    rcases hop with h | h <;> subst h <;> rfl

lemma computePlan_connected (o : Oracle) (n : String) (values : List Value)
    (s : StateParam) (ml : Modlist) (hcp : (computePlan o n values s).2 = .ok ml)
    (hml : ml ≠ []) : (computePlan o n values s).1.connected = true := by
  cases s with
  | present =>
    simp only [computePlan, handle_present_fst]
    cases values with
    | nil =>
      exfalso
      simp [computePlan, handle_present, filterByPresence] at hcp
      exact hml hcp
    | cons v vs => exact filterByPresence_connected o false (v :: vs) initState (by simp)
  | absent =>
    simp only [computePlan, handle_absent_fst]
    cases values with
    | nil =>
      exfalso
      simp [computePlan, handle_absent, filterByPresence] at hcp
      exact hml hcp
    | cons v vs => exact filterByPresence_connected o true (v :: vs) initState (by simp)
  | exact =>
    simp only [computePlan, handle_exact_fst, current_values_fst]

lemma current_values_snd (o : Oracle) (st : ExecState) :
    (current_values o st).2 = o.searchResp := rfl

/-! ### Claim theorems -/

/-- Claim C1: in exact mode, if the current value set equals the desired
set (as sets, ignoring order) the plan is empty; otherwise an empty
current set gives `Add(desired)`, an empty desired set gives a
whole-attribute delete, and any other disagreement gives
`Replace(desired)`. -/
theorem handle_exact_tie_break (o : Oracle) (n : String)
    (values current : List Value) (st : ExecState)
    (h : o.searchResp = .ok current) :
    (values.toFinset = current.toFinset →
      (handle_exact o n values st).2 = .ok []) ∧
    (values.toFinset ≠ current.toFinset → current = [] →
      (handle_exact o n values st).2 = .ok [⟨ModType.modAdd, n, some values⟩]) ∧
    (values.toFinset ≠ current.toFinset → current ≠ [] → values = [] →
      (handle_exact o n values st).2 = .ok [⟨ModType.modDelete, n, none⟩]) ∧
    (values.toFinset ≠ current.toFinset → current ≠ [] → values ≠ [] →
      (handle_exact o n values st).2 = .ok [⟨ModType.modReplace, n, some values⟩]) := by
  have hx : (handle_exact o n values st).2 =
      .ok (if values.toFinset = current.toFinset then []
           else if current.length = 0 then [⟨ModType.modAdd, n, some values⟩]
           else if values.length = 0 then [⟨ModType.modDelete, n, none⟩]
           else [⟨ModType.modReplace, n, some values⟩]) := by
    simp only [handle_exact, current_values_snd, h]
  refine ⟨?_, ?_, ?_, ?_⟩
  · intro h1
    rw [hx]
    simp [h1]
  · intro h1 h2
    subst h2
    rw [hx]
    have hvne : values ≠ [] := fun hv => h1 (by rw [hv])
    simp [h1, hvne]
  · intro h1 h2 h3
    subst h3
    rw [hx]
    have h1' : ¬(∅ = current.toFinset) := by simpa using h1
    simp [h1', List.length_eq_zero, h2]
  · intro h1 h2 h3
    rw [hx]
    simp [h1, List.length_eq_zero, h2, h3]

/-- Witness for C1: current `["a"]`, desired `["b"]` yields Replace. -/
theorem handle_exact_tie_break_witness :
    (handle_exact (oracleOf ["a"]) "attr" ["b"] initState).2 =
      .ok [⟨ModType.modReplace, "attr", some ["b"]⟩] :=
  (handle_exact_tie_break (oracleOf ["a"]) "attr" ["b"] ["a"] initState rfl).2.2.2
    (by decide) (by decide) (by decide)

/-- Claim C9: `is_value_present` converts exactly the no-such-attribute
error to a normal-path `false`; every other directory error propagates,
and a normal compare response passes through. -/
theorem is_value_present_error_handling (o : Oracle) (st : ExecState)
    (v : Value) :
    (o.compareResp v = .error DirError.noSuchAttribute →
      (is_value_present o st v).2 = .ok false) ∧
    (∀ e, e ≠ DirError.noSuchAttribute → o.compareResp v = .error e →
      (is_value_present o st v).2 = .error e) ∧
    (∀ b, o.compareResp v = .ok b → (is_value_present o st v).2 = .ok b) := by
  refine ⟨?_, ?_, ?_⟩
  · intro h
    simp [is_value_present_snd, value_present_result, h]
  · intro e he h
    cases e with
    | noSuchAttribute => exact absurd rfl he
    | other msg => simp [is_value_present_snd, value_present_result, h]
  · intro b h
    simp [is_value_present_snd, value_present_result, h]

/-- Witness for C9: a missing attribute reads as `false`; a connection
failure propagates. -/
theorem is_value_present_error_handling_witness :
    (is_value_present ⟨fun _ => .error DirError.noSuchAttribute,
        .error (DirError.other "e"), fun _ => .error (DirError.other "e")⟩
      initState "v").2 = .ok false ∧
    (is_value_present ⟨fun _ => .error (DirError.other "server down"),
        .error (DirError.other "server down"),
        fun _ => .error (DirError.other "server down")⟩
      initState "v").2 = .error (DirError.other "server down") :=
  ⟨(is_value_present_error_handling _ initState "v").1 rfl,
   (is_value_present_error_handling _ initState "v").2.1
     (DirError.other "server down") (by decide) rfl⟩

/-- Claim C10: in present or absent mode with an empty normalized value
set, the invocation reports `changed = false` with an empty plan and
issues no directory operation at all (no connection, compare, search or
modify). -/
theorem empty_values_no_contact (o : Oracle) (n : String) (vp : Param)
    (s : StateParam) (ck : Bool)
    (hv : normalized_values vp = .ok [])
    (hs : s = StateParam.present ∨ s = StateParam.absent) :
    ldap_attr_invoke o n vp s ck = (.success false [], []) := by
  rcases hs with h | h <;> subst h <;>
    simp [ldap_attr_invoke, hv, ldap_attr_main, computePlan, handle_present,
      handle_absent, filterByPresence, initState]

/-- Witness for C10: the empty-string values parameter in present mode. -/
theorem empty_values_no_contact_witness :
    ldap_attr_invoke (oracleOf ["a"]) "attr" (Param.str "") StateParam.present
      false = (.success false [], []) :=
  empty_values_no_contact (oracleOf ["a"]) "attr" (Param.str "")
    StateParam.present false rfl (Or.inl rfl)

/-- Claim C3: in present mode the plan keeps exactly the desired values
whose `valuePresent` check returns false, as a single Add when nonempty
and an empty plan otherwise; when none of the desired values is present
and the list is nonempty, the run reports `changed = true` with
`Add(values)`. -/
theorem handle_present_computes_missing (o : Oracle) (n : String)
    (values : List Value) (p : Value → Bool) (ck : Bool) (st : ExecState)
    (hp : ∀ v, value_present_result o v = .ok (p v)) :
    ((handle_present o n values st).2 =
      .ok (if 0 < (values.filter (fun v => p v == false)).length
           then [⟨ModType.modAdd, n, some (values.filter (fun v => p v == false))⟩]
           else [])) ∧
    ((∀ v ∈ values, p v = false) → values ≠ [] →
      o.modifyResp [⟨ModType.modAdd, n, some values⟩] = .ok () →
      (ldap_attr_main o n values StateParam.present ck).2 =
        .ok ⟨true, [⟨ModType.modAdd, n, some values⟩]⟩) := by
  constructor
  · exact handle_present_snd o p hp n values st
  · intro hall hne hmod
    have hfil : values.filter (fun v => p v == false) = values :=
      List.filter_eq_self.mpr (fun v hv => by simp [hall v hv])
    have hcp : (computePlan o n values StateParam.present).2 =
        .ok [⟨ModType.modAdd, n, some values⟩] := by
      have hs := handle_present_snd o p hp n values initState
      simp only [computePlan]
      rw [hs, hfil]
      simp [List.length_pos.mpr hne]
    cases ck <;> simp [ldap_attr_main, hcp, hmod]

/-- Witness for C3: no value present, desired `["x", "y"]` gives
`Add(["x", "y"])` with `changed = true`. -/
theorem handle_present_computes_missing_witness :
    (handle_present (oracleOf []) "attr" ["x", "y"] initState).2 =
      .ok [⟨ModType.modAdd, "attr", some ["x", "y"]⟩] ∧
    (ldap_attr_main (oracleOf []) "attr" ["x", "y"] StateParam.present
        false).2 =
      .ok ⟨true, [⟨ModType.modAdd, "attr", some ["x", "y"]⟩]⟩ := by
  have h := handle_present_computes_missing (oracleOf []) "attr" ["x", "y"]
    (fun _ => false) false initState (fun v => rfl)
  refine ⟨?_, h.2 (by simp) (by simp) rfl⟩
  rw [h.1]
  rfl

/-- Claim C4: in absent mode the plan keeps exactly the desired values
whose `valuePresent` check returns true, as a single Delete when nonempty
and an empty plan otherwise; when the kept collection is nonempty the run
reports `changed = true` with that Delete. -/
theorem handle_absent_computes_present (o : Oracle) (n : String)
    (values : List Value) (p : Value → Bool) (ck : Bool) (st : ExecState)
    (hp : ∀ v, value_present_result o v = .ok (p v)) :
    ((handle_absent o n values st).2 =
      .ok (if 0 < (values.filter p).length
           then [⟨ModType.modDelete, n, some (values.filter p)⟩]
           else [])) ∧
    (values.filter p ≠ [] →
      o.modifyResp [⟨ModType.modDelete, n, some (values.filter p)⟩] = .ok () →
      (ldap_attr_main o n values StateParam.absent ck).2 =
        .ok ⟨true, [⟨ModType.modDelete, n, some (values.filter p)⟩]⟩) := by
  have hft : values.filter (fun v => p v == true) = values.filter p := by simp
  have hs0 := handle_absent_snd o p hp n values st
  rw [hft] at hs0
  constructor
  · exact hs0
  · intro hne hmod
    have hcp : (computePlan o n values StateParam.absent).2 =
        .ok [⟨ModType.modDelete, n, some (values.filter p)⟩] := by
      have hs := handle_absent_snd o p hp n values initState
      rw [hft] at hs
      simp only [computePlan]
      rw [hs, if_pos (List.length_pos.mpr hne)]
    cases ck <;> simp [ldap_attr_main, hcp, hmod]

/-- Witness for C4: attribute holds exactly `["x"]`, desired
`["x", "z"]` gives `Delete(["x"])` with `changed = true`. -/
theorem handle_absent_computes_present_witness :
    (handle_absent (oracleOf ["x"]) "attr" ["x", "z"] initState).2 =
      .ok [⟨ModType.modDelete, "attr", some ["x"]⟩] ∧
    (ldap_attr_main (oracleOf ["x"]) "attr" ["x", "z"] StateParam.absent
        false).2 =
      .ok ⟨true, [⟨ModType.modDelete, "attr", some ["x"]⟩]⟩ := by
  have h := handle_absent_computes_present (oracleOf ["x"]) "attr" ["x", "z"]
    (fun v => decide (v ∈ (["x"] : List Value))) false initState
    (fun v => rfl)
  have hfil : (["x", "z"] : List Value).filter
      (fun v => decide (v ∈ (["x"] : List Value))) = ["x"] := by decide
  constructor
  · rw [h.1, hfil]
    rfl
  · have h2 := h.2 (by rw [hfil]; simp) rfl
    rw [hfil] at h2
    exact h2

/-! ### Characterizations of the main entry points -/

lemma ldap_attr_main_snd (o : Oracle) (n : String) (values : List Value)
    (s : StateParam) (ck : Bool) :
    (ldap_attr_main o n values s ck).2 =
      match (computePlan o n values s).2 with
      | .error e => .error e
      | .ok modlist =>
        if 0 < modlist.length then
          if ck then .ok ⟨true, modlist⟩
          else
            match o.modifyResp modlist with
            | .error e => .error e
            | .ok _ => .ok ⟨true, modlist⟩
        else .ok ⟨false, modlist⟩ := by
  simp only [ldap_attr_main]
  cases hcp : (computePlan o n values s).2 with
  | error e => simp
  | ok ml =>
    by_cases hlen : 0 < ml.length
    · cases ck <;> simp [hlen]
    · simp [hlen]

lemma ldap_attr_main_fst (o : Oracle) (n : String) (values : List Value)
    (s : StateParam) (ck : Bool) :
    (ldap_attr_main o n values s ck).1 =
      match (computePlan o n values s).2 with
      | .error _ => (computePlan o n values s).1
      | .ok modlist =>
        if 0 < modlist.length then
          if ck then (computePlan o n values s).1
          else
            ⟨(ensureConnected (computePlan o n values s).1).connected,
             (ensureConnected (computePlan o n values s).1).trace ++
               [DirOp.modify modlist]⟩
        else (computePlan o n values s).1 := by
  simp only [ldap_attr_main]
  cases hcp : (computePlan o n values s).2 with
  | error e => simp
  | ok ml =>
    by_cases hlen : 0 < ml.length
    · cases ck <;> simp [hlen]
    · simp [hlen]

lemma ldap_attr_invoke_eq (o : Oracle) (n : String) (vp : Param)
    (s : StateParam) (ck : Bool) :
    ldap_attr_invoke o n vp s ck =
      match normalized_values vp with
      | .error msg => (.invalidInput msg, [])
      | .ok values =>
        match (ldap_attr_main o n values s ck).2 with
        | .error e => (.dirFailure e, (ldap_attr_main o n values s ck).1.trace)
        | .ok r =>
          (.success r.changed r.modlist,
           (ldap_attr_main o n values s ck).1.trace) := by
  simp only [ldap_attr_invoke]
  cases normalized_values vp with
  | error msg => rfl
  | ok values =>
    rcases hm : ldap_attr_main o n values s ck with ⟨st, res⟩
    cases res <;> simp [hm]

/-- Claim C2: with `checkMode = true` the modification operation is never
issued (no `modify_s` in the trace, so the server state is unchanged),
the planning reads are still performed (the check-mode trace is exactly
the non-check trace with the modify removed), and whenever the non-check
run succeeds the check-mode run reports the same `changed` flag and
plan. -/
lemma ldap_attr_main_err (o : Oracle) (n : String) (values : List Value)
    (s : StateParam) (ck : Bool) (e : DirError)
    (hcp : (computePlan o n values s).2 = .error e) :
    ldap_attr_main o n values s ck = ((computePlan o n values s).1, .error e) := by
  simp [ldap_attr_main, hcp]

lemma ldap_attr_main_nil (o : Oracle) (n : String) (values : List Value)
    (s : StateParam) (ck : Bool)
    (hcp : (computePlan o n values s).2 = .ok []) :
    ldap_attr_main o n values s ck =
      ((computePlan o n values s).1, .ok ⟨false, []⟩) := by
  simp [ldap_attr_main, hcp]

lemma ldap_attr_main_check_ok (o : Oracle) (n : String) (values : List Value)
    (s : StateParam) (ml : Modlist)
    (hcp : (computePlan o n values s).2 = .ok ml) (hlen : 0 < ml.length) :
    ldap_attr_main o n values s true =
      ((computePlan o n values s).1, .ok ⟨true, ml⟩) := by
  simp [ldap_attr_main, hcp, hlen]

lemma ldap_attr_main_nocheck_ok (o : Oracle) (n : String) (values : List Value)
    (s : StateParam) (ml : Modlist)
    (hcp : (computePlan o n values s).2 = .ok ml) (hlen : 0 < ml.length)
    (hconn : (computePlan o n values s).1.connected = true) :
    ldap_attr_main o n values s false =
      (⟨true, (computePlan o n values s).1.trace ++ [DirOp.modify ml]⟩,
       match o.modifyResp ml with
       | .error e => .error e
       | .ok _ => .ok ⟨true, ml⟩) := by
  simp [ldap_attr_main, hcp, hlen, ensureConnected_of_connected hconn, hconn]

/-- Claim C2: with `checkMode = true` the modification operation is never
issued (no `modify_s` in the trace, so the server state is unchanged),
the planning reads are still performed (the check-mode trace is exactly
the non-check trace with the modify removed), and whenever the non-check
run succeeds the check-mode run reports the same `changed` flag and
plan. -/
theorem check_mode_never_modifies (o : Oracle) (n : String) (vp : Param)
    (s : StateParam) :
    (∀ op ∈ (ldap_attr_invoke o n vp s true).2, op.isModify = false) ∧
    ((ldap_attr_invoke o n vp s true).2 =
      (ldap_attr_invoke o n vp s false).2.filter (fun op => !op.isModify)) ∧
    (∀ ch ml, (ldap_attr_invoke o n vp s false).1 = .success ch ml →
      (ldap_attr_invoke o n vp s true).1 = .success ch ml) := by
  cases hnv : normalized_values vp with
  | error msg => exact ⟨by simp [ldap_attr_invoke, hnv], by simp [ldap_attr_invoke, hnv],
      by simp [ldap_attr_invoke, hnv]⟩
  | ok values =>
    have hnm := computePlan_no_modify o n values s
    have hself : (computePlan o n values s).1.trace.filter
        (fun op => !op.isModify) = (computePlan o n values s).1.trace :=
      List.filter_eq_self.mpr (fun op hop => by simp [hnm op hop])
    simp only [ldap_attr_invoke, hnv]
    cases hcp : (computePlan o n values s).2 with
    | error e =>
      rw [ldap_attr_main_err o n values s true e hcp,
        ldap_attr_main_err o n values s false e hcp]
      dsimp only
      exact ⟨fun op hop => hnm op hop, hself.symm, by simp⟩
    | ok ml =>
      by_cases hlen : 0 < ml.length
      · have hml : ml ≠ [] := by
          intro hz
          rw [hz] at hlen
          exact absurd hlen (by simp)
        have hconn := computePlan_connected o n values s ml hcp hml
        rw [ldap_attr_main_check_ok o n values s ml hcp hlen,
          ldap_attr_main_nocheck_ok o n values s ml hcp hlen hconn]
        have hfm : List.filter (fun op => !DirOp.isModify op)
            [DirOp.modify ml] = [] := rfl
        cases hmr : o.modifyResp ml with
        | error e =>
          dsimp only
          refine ⟨fun op hop => hnm op hop, ?_, by simp⟩
          rw [List.filter_append, hfm, hself, List.append_nil]
        | ok u =>
          dsimp only
          refine ⟨fun op hop => hnm op hop, ?_, ?_⟩
          · rw [List.filter_append, hfm, hself, List.append_nil]
          · intro ch ml2 hsucc
            exact hsucc
      · have hml0 : ml = [] := by
          cases ml with
          | nil => rfl
          | cons a as => exact absurd (by simp) hlen
        subst hml0
        rw [ldap_attr_main_nil o n values s true hcp,
          ldap_attr_main_nil o n values s false hcp]
        dsimp only
        exact ⟨fun op hop => hnm op hop, hself.symm, fun ch ml2 hsucc => hsucc⟩

/-- Witness for C2: a check-mode present run still reports the Add plan
with `changed = true`, as the non-check run does. -/
theorem check_mode_never_modifies_witness :
    (ldap_attr_invoke (oracleOf []) "attr" (Param.str "b") StateParam.present
        true).1 =
      .success true [⟨ModType.modAdd, "attr", some ["b"]⟩] :=
  (check_mode_never_modifies (oracleOf []) "attr" (Param.str "b")
      StateParam.present).2.2
    true [⟨ModType.modAdd, "attr", some ["b"]⟩] rfl

/-- Claim C8: every successful invocation reports `changed = true` exactly
when the plan is nonempty, and reports exactly the computed plan,
regardless of check mode. -/
theorem changed_iff_plan_nonempty (o : Oracle) (n : String) (vp : Param)
    (s : StateParam) (ck : Bool) (ch : Bool) (ml : Modlist) (tr : List DirOp)
    (h : ldap_attr_invoke o n vp s ck = (.success ch ml, tr)) :
    (ch = true ↔ ml ≠ []) ∧
    ∃ values, normalized_values vp = .ok values ∧
      (computePlan o n values s).2 = .ok ml := by
  rw [ldap_attr_invoke_eq] at h
  cases hnv : normalized_values vp with
  | error msg =>
    rw [hnv] at h
    simp at h
  | ok values =>
    rw [hnv] at h
    dsimp only at h
    rw [ldap_attr_main_snd] at h
    cases hcp : (computePlan o n values s).2 with
    | error e =>
      rw [hcp] at h
      simp at h
    | ok ml2 =>
      rw [hcp] at h
      by_cases hlen : 0 < ml2.length
      · have hml2 : ml2 ≠ [] := by
          intro hz
          rw [hz] at hlen
          exact absurd hlen (by simp)
        cases ck with
        | true =>
          simp only [hlen, if_true, Prod.mk.injEq,
            InvocationResult.success.injEq] at h
          obtain ⟨⟨hch, hml⟩, _⟩ := h
          subst hch
          subst hml
          exact ⟨by simp [hml2], values, rfl, hcp⟩
        | false =>
          simp only [hlen, if_true, Bool.false_eq_true, if_false] at h
          cases hmr : o.modifyResp ml2 with
          | error e =>
            rw [hmr] at h
            simp at h
          | ok u =>
            rw [hmr] at h
            simp only [Prod.mk.injEq, InvocationResult.success.injEq] at h
            obtain ⟨⟨hch, hml⟩, _⟩ := h
            subst hch
            subst hml
            exact ⟨by simp [hml2], values, rfl, hcp⟩
      · simp only [hlen, if_false, Prod.mk.injEq,
          InvocationResult.success.injEq] at h
        obtain ⟨⟨hch, hml⟩, _⟩ := h
        have hml2 : ml2 = [] := by
          cases ml2 with
          | nil => rfl
          | cons a as => exact absurd (by simp) hlen
        subst hch
        subst hml
        subst hml2
        exact ⟨by simp, values, rfl, hcp⟩

/-- Witness for C8: a concrete check-mode present run. -/
theorem changed_iff_plan_nonempty_witness :
    ((true = true) ↔ ([⟨ModType.modAdd, "n", some ["v"]⟩] : Modlist) ≠ []) ∧
    ∃ values, normalized_values (Param.str "v") = .ok values ∧
      (computePlan (oracleOf []) "n" values StateParam.present).2 =
        .ok [⟨ModType.modAdd, "n", some ["v"]⟩] :=
  changed_iff_plan_nonempty (oracleOf []) "n" (Param.str "v")
    StateParam.present true true [⟨ModType.modAdd, "n", some ["v"]⟩]
    [DirOp.connect, DirOp.compare "v"] rfl

/-! ### Idempotence (claim C5) -/

lemma computePlan_present_oracleOf (S : List Value) (n : String)
    (values : List Value) :
    (computePlan (oracleOf S) n values StateParam.present).2 =
      .ok (if 0 < (values.filter (fun v => !decide (v ∈ S))).length
           then [⟨ModType.modAdd, n,
                  some (values.filter (fun v => !decide (v ∈ S)))⟩]
           else []) := by
  have h := handle_present_snd (oracleOf S) (fun v => decide (v ∈ S))
    (fun v => rfl) n values initState
  have hft : values.filter (fun v => decide (v ∈ S) == false) =
      values.filter (fun v => !decide (v ∈ S)) := by simp
  simp only [computePlan]
  rw [h, hft]

lemma computePlan_absent_oracleOf (S : List Value) (n : String)
    (values : List Value) :
    (computePlan (oracleOf S) n values StateParam.absent).2 =
      .ok (if 0 < (values.filter (fun v => decide (v ∈ S))).length
           then [⟨ModType.modDelete, n,
                  some (values.filter (fun v => decide (v ∈ S)))⟩]
           else []) := by
  have h := handle_absent_snd (oracleOf S) (fun v => decide (v ∈ S))
    (fun v => rfl) n values initState
  have hft : values.filter (fun v => decide (v ∈ S) == true) =
      values.filter (fun v => decide (v ∈ S)) := by simp
  simp only [computePlan]
  rw [h, hft]

/-- Claim C5: in present or absent mode, applying the computed plan to the
server state (plan semantics on the value list) and recomputing the plan
with the same inputs yields an empty plan. -/
theorem plan_idempotent (S values : List Value) (n : String) (s : StateParam)
    (hs : s = StateParam.present ∨ s = StateParam.absent) :
    ∃ ml, (computePlan (oracleOf S) n values s).2 = .ok ml ∧
      (computePlan (oracleOf (applyPlan S ml)) n values s).2 = .ok [] := by
  rcases hs with h | h <;> subst h
  · by_cases hm : 0 < (values.filter (fun v => !decide (v ∈ S))).length
    · refine ⟨[⟨ModType.modAdd, n,
          some (values.filter (fun v => !decide (v ∈ S)))⟩], ?_, ?_⟩
      · rw [computePlan_present_oracleOf, if_pos hm]
      · have happ : applyPlan S
            [⟨ModType.modAdd, n,
              some (values.filter (fun v => !decide (v ∈ S)))⟩] =
            S ++ values.filter (fun v => !decide (v ∈ S)) := rfl
        rw [happ, computePlan_present_oracleOf]
        have hnil : values.filter
            (fun v => !decide (v ∈ S ++ values.filter
              (fun v => !decide (v ∈ S)))) = [] := by
          rw [List.filter_eq_nil_iff]
          intro v hv
          have hmem : v ∈ S ++ values.filter (fun v => !decide (v ∈ S)) := by
            by_cases hvS : v ∈ S
            · exact List.mem_append_left _ hvS
            · exact List.mem_append_right _
                (List.mem_filter.mpr ⟨hv, by simp [hvS]⟩)
          simp [hmem]
        rw [hnil]
        simp
    · refine ⟨[], ?_, ?_⟩
      · rw [computePlan_present_oracleOf, if_neg hm]
      · have happ : applyPlan S [] = S := rfl
        rw [happ, computePlan_present_oracleOf, if_neg hm]
  · by_cases hm : 0 < (values.filter (fun v => decide (v ∈ S))).length
    · refine ⟨[⟨ModType.modDelete, n,
          some (values.filter (fun v => decide (v ∈ S)))⟩], ?_, ?_⟩
      · rw [computePlan_absent_oracleOf, if_pos hm]
      · have happ : applyPlan S
            [⟨ModType.modDelete, n,
              some (values.filter (fun v => decide (v ∈ S)))⟩] =
            S.filter (fun v =>
              decide (v ∉ values.filter (fun v => decide (v ∈ S)))) := rfl
        rw [happ, computePlan_absent_oracleOf]
        have hnil : values.filter (fun v => decide (v ∈ S.filter (fun v =>
            decide (v ∉ values.filter (fun v => decide (v ∈ S)))))) = [] := by
          rw [List.filter_eq_nil_iff]
          intro v hv
          simp only [decide_eq_true_eq]
          intro hin
          obtain ⟨hvS, hdec⟩ := List.mem_filter.mp hin
          have hnm : v ∉ values.filter (fun v => decide (v ∈ S)) :=
            of_decide_eq_true hdec
          exact hnm (List.mem_filter.mpr ⟨hv, by simp [hvS]⟩)
        rw [hnil]
        simp
    · refine ⟨[], ?_, ?_⟩
      · rw [computePlan_absent_oracleOf, if_neg hm]
      · have happ : applyPlan S [] = S := rfl
        rw [happ, computePlan_absent_oracleOf, if_neg hm]

/-- Witness for C5: adding the missing value "b" to a server holding
["a"], then replanning, yields an empty plan. -/
theorem plan_idempotent_witness :
    ∃ ml, (computePlan (oracleOf ["a"]) "attr" ["b"] StateParam.present).2 =
        .ok ml ∧
      (computePlan (oracleOf (applyPlan ["a"] ml)) "attr" ["b"]
          StateParam.present).2 = .ok [] :=
  plan_idempotent ["a"] ["b"] "attr" StateParam.present (Or.inl rfl)

/-! ### Duplicate handling (claim C6) -/

/-- Claim C6 is false on the code: the input list `["x", "x"]` passes
normalization unchanged and present mode emits `Add(["x", "x"])`, an
operation carrying the same value twice. -/
theorem values_dedup_counterexample :
    normalized_values (Param.list [Param.str "x", Param.str "x"]) =
      .ok ["x", "x"] ∧
    (handle_present (oracleOf []) "attr" ["x", "x"] initState).2 =
      .ok [⟨ModType.modAdd, "attr", some ["x", "x"]⟩] ∧
    (["x", "x"] : List Value).count "x" = 2 :=
  ⟨rfl, rfl, rfl⟩

/-- Claim C6 (amended): normalization preserves the input list verbatim,
including duplicates — no collapse to a set happens before planning, so a
computed operation can carry the same value more than once. -/
theorem values_not_deduplicated (ss : List String) (n : String) :
    normalized_values (Param.list (ss.map Param.str)) = .ok ss ∧
    (handle_present (oracleOf []) n ss initState).2 =
      .ok (if 0 < ss.length then [⟨ModType.modAdd, n, some ss⟩] else []) := by
  constructor
  · have hstr : asStrings (ss.map Param.str) = some ss := by
      induction ss with
      | nil => rfl
      | cons a as ih => simp [asStrings, Param.asString, ih]
    simp [normalized_values, hstr]
  · have h := handle_present_snd (oracleOf [])
      (fun v => decide (v ∈ ([] : List Value))) (fun v => rfl) n ss initState
    have hfil : ss.filter
        (fun v => decide (v ∈ ([] : List Value)) == false) = ss :=
      List.filter_eq_self.mpr (fun v hv => by simp)
    rw [h, hfil]

/-! ### Input normalization (claim C7) -/

/-- A `values` parameter that is neither a string nor a list of strings:
either some other type entirely, or a list with a non-string member. -/
def badValues (vp : Param) : Prop :=
  vp = Param.other ∨ ∃ xs, vp = Param.list xs ∧ ∃ x ∈ xs, x.asString = none

lemma asStrings_none {xs : List Param} {x : Param} (hx : x ∈ xs)
    (hnone : x.asString = none) : asStrings xs = none := by
  induction xs with
  | nil => simp at hx
  | cons y ys ih =>
    rcases List.mem_cons.mp hx with h | h
    · subst h
      simp [asStrings, hnone]
    · cases hy : y.asString with
      | none => simp [asStrings, hy]
      | some s => simp [asStrings, hy, ih h]

/-- Claim C7: the empty string normalizes to the empty value set, a
non-empty string to a one-element set; a parameter that is neither a
string nor a list of strings fails with the invalid-input message, and
that failure happens with no directory operation issued at all. -/
theorem normalized_values_spec :
    (normalized_values (Param.str "") = .ok []) ∧
    (∀ s : String, s ≠ "" → normalized_values (Param.str s) = .ok [s]) ∧
    (∀ vp : Param, badValues vp →
      normalized_values vp =
        .error "values must be a string or list of strings.") ∧
    (∀ vp : Param, badValues vp →
      ∀ (o : Oracle) (n : String) (s : StateParam) (ck : Bool),
        ldap_attr_invoke o n vp s ck =
          (.invalidInput "values must be a string or list of strings.", [])) := by
  have hbad : ∀ vp : Param, badValues vp →
      normalized_values vp =
        .error "values must be a string or list of strings." := by
    intro vp hvp
    rcases hvp with h | ⟨xs, hxs, x, hx, hnone⟩
    · subst h
      rfl
    · subst hxs
      simp [normalized_values, asStrings_none hx hnone]
  refine ⟨rfl, ?_, hbad, ?_⟩
  · intro s hs
    simp [normalized_values, hs, asStrings, Param.asString]
  · intro vp hvp o n s ck
    simp [ldap_attr_invoke, hbad vp hvp]

/-- Witness for C7: the empty string, a one-character string, the
non-string non-list parameter, and a list holding a non-string. -/
theorem normalized_values_spec_witness :
    normalized_values (Param.str "") = .ok [] ∧
    normalized_values (Param.str "a") = .ok ["a"] ∧
    normalized_values Param.other =
      .error "values must be a string or list of strings." ∧
    ldap_attr_invoke (oracleOf []) "attr" (Param.list [Param.other])
        StateParam.present false =
      (.invalidInput "values must be a string or list of strings.", []) :=
  ⟨normalized_values_spec.1, normalized_values_spec.2.1 "a" (by decide),
   normalized_values_spec.2.2.1 Param.other (Or.inl rfl),
   normalized_values_spec.2.2.2 (Param.list [Param.other])
     (Or.inr ⟨[Param.other], rfl, Param.other, by simp, rfl⟩)
     (oracleOf []) "attr" StateParam.present false⟩

end LdapAttr
